import Mathlib

/-!
Verification development for the Secure_chain local backend
(`local-backend/index.js`) and the file-view logic of the frontend dashboard.

The backend watches an `activityLogs` collection, and for each newly added
activity document builds a hash-linked block
`{timestamp: Date.now(), activity, previousHash}`, sets
`hash := SHA256(JSON.stringify(block))` (hex, via crypto-js) and appends it to
the `blockchain` collection.  This file embeds that logic — the SHA-256
digest, the `JSON.stringify` serialization, block creation, the
latest-block query, the snapshot watcher dispatch, the batched collection
clearing, and the dashboard's derived current-file view — as executable Lean
definitions, and proves the specified properties about them.
-/

namespace SecureChain

/-- Truncation to a 32-bit word: arithmetic in SHA-256 is modulo `2^32`. -/
def w32 (n : Nat) : Nat := n % 4294967296

/-- Right rotation of a 32-bit word by `n` places. -/
def rotr (n x : Nat) : Nat := w32 ((x >>> n) ||| (x <<< (32 - n)))

/-- The eight initial SHA-256 hash values (FIPS 180-4 §5.3.3). -/
def sha256H0 : List Nat :=
  [1779033703, 3144134277, 1013904242, 2773480762,
   1359893119, 2600822924, 528734635, 1541459225]

/-- The 64 SHA-256 round constants (FIPS 180-4 §4.2.2), in decimal. -/
def sha256K : List Nat :=
  [1116352408, 1899447441, 3049323471, 3921009573, 961987163,
   1508970993, 2453635748, 2870763221, 3624381080, 310598401,
   607225278, 1426881987, 1925078388, 2162078206, 2614888103,
   3248222580, 3835390401, 4022224774, 264347078, 604807628,
   770255983, 1249150122, 1555081692, 1996064986, 2554220882,
   2821834349, 2952996808, 3210313671, 3336571891, 3584528711,
   113926993, 338241895, 666307205, 773529912, 1294757372,
   1396182291, 1695183700, 1986661051, 2177026350, 2456956037,
   2730485921, 2820302411, 3259730800, 3345764771, 3516065817,
   3600352804, 4094571909, 275423344, 430227734, 506948616,
   659060556, 883997877, 958139571, 1322822218, 1537002063,
   1747873779, 1955562222, 2024104815, 2227730452, 2361852424,
   2428436474, 2756734187, 3204031479, 3329325298]

/-- The SHA-256 choice function `Ch(x,y,z)`; complement is XOR with the
all-ones 32-bit mask since inputs are 32-bit words. -/
def ch (x y z : Nat) : Nat := (x &&& y) ^^^ ((x ^^^ 0xffffffff) &&& z)

/-- The SHA-256 majority function `Maj(x,y,z)`. -/
def maj (x y z : Nat) : Nat := (x &&& y) ^^^ (x &&& z) ^^^ (y &&& z)

/-- Big sigma 0. -/
def bsig0 (x : Nat) : Nat := rotr 2 x ^^^ rotr 13 x ^^^ rotr 22 x

/-- Big sigma 1. -/
def bsig1 (x : Nat) : Nat := rotr 6 x ^^^ rotr 11 x ^^^ rotr 25 x

/-- Small sigma 0. -/
def ssig0 (x : Nat) : Nat := rotr 7 x ^^^ rotr 18 x ^^^ (x >>> 3)

/-- Small sigma 1. -/
def ssig1 (x : Nat) : Nat := rotr 17 x ^^^ rotr 19 x ^^^ (x >>> 10)

/-- UTF-8 encoding of one Unicode code point, as crypto-js's `Utf8` parser
applies to a JavaScript string before hashing. -/
def utf8Bytes (c : Nat) : List Nat :=
  if c < 0x80 then [c]
  else if c < 0x800 then
    [0xc0 ||| (c >>> 6), 0x80 ||| (c &&& 0x3f)]
  else if c < 0x10000 then
    [0xe0 ||| (c >>> 12), 0x80 ||| ((c >>> 6) &&& 0x3f), 0x80 ||| (c &&& 0x3f)]
  else
    [0xf0 ||| (c >>> 18), 0x80 ||| ((c >>> 12) &&& 0x3f),
     0x80 ||| ((c >>> 6) &&& 0x3f), 0x80 ||| (c &&& 0x3f)]

/-- The UTF-8 byte sequence of a string. -/
def strBytes (s : String) : List Nat := (s.data.map (fun c => utf8Bytes c.toNat)).flatten

/-- Big-endian 8-byte encoding of a length-in-bits field. -/
def be64 (n : Nat) : List Nat := (List.range 8).map (fun i => (n >>> (8 * (7 - i))) % 256)

/-- SHA-256 padding (FIPS 180-4 §5.1.1): append `0x80`, zero-pad so that the
total length including the trailing 8-byte bit length is a multiple of 64. -/
def padMessage (msg : List Nat) : List Nat :=
  msg ++ [0x80] ++ List.replicate ((64 - (msg.length + 9) % 64) % 64) 0 ++ be64 (8 * msg.length)

/-- Bounded loop splitting a byte list into 64-byte chunks; the fuel bounds
the number of pages and only needs to be at least `l.length`. -/
def toChunksFuel : Nat → List Nat → List (List Nat)
  | 0, _ => []
  | fuel + 1, l => if l.length = 0 then [] else l.take 64 :: toChunksFuel fuel (l.drop 64)

/-- Split a byte list into 64-byte chunks.  Irreducible so that unification
never unfolds a digest term; proofs use it opaquely and concrete digests are
evaluated by the kernel alone. -/
@[irreducible] def toChunks (l : List Nat) : List (List Nat) := toChunksFuel l.length l

/-- One 32-bit word from four big-endian bytes. -/
def wordOfBytes (b0 b1 b2 b3 : Nat) : Nat :=
  (((((b0 <<< 8) ||| b1) <<< 8) ||| b2) <<< 8) ||| b3

/-- The first 16 words of the message schedule, read big-endian from a
64-byte chunk. -/
def chunkWords (chunk : List Nat) : List Nat :=
  (List.range 16).map (fun i =>
    wordOfBytes (chunk.getD (4 * i) 0) (chunk.getD (4 * i + 1) 0)
      (chunk.getD (4 * i + 2) 0) (chunk.getD (4 * i + 3) 0))

/-- Extend the message schedule by `n` words; `acc` holds the words produced
so far in reverse (most recent first). -/
def extendWords : Nat → List Nat → List Nat
  | 0, acc => acc.reverse
  | n + 1, acc =>
    extendWords n
      (w32 (ssig1 (acc.getD 1 0) + acc.getD 6 0 + ssig0 (acc.getD 14 0) + acc.getD 15 0) :: acc)

/-- The full 64-word message schedule of one chunk. -/
def messageSchedule (chunk : List Nat) : List Nat :=
  extendWords 48 (chunkWords chunk).reverse

/-- One SHA-256 round on the eight-word working state, consuming one
(round constant, schedule word) pair. -/
def roundStep (st : List Nat) (kw : Nat × Nat) : List Nat :=
  match st with
  | [a, b, c, d, e, f, g, h] =>
    let t1 := w32 (h + bsig1 e + ch e f g + kw.1 + kw.2)
    let t2 := w32 (bsig0 a + maj a b c)
    [w32 (t1 + t2), a, b, c, w32 (d + t1), e, f, g]
  | other => other

/-- Compression of one 64-byte chunk into the eight-word state. -/
def compress (st : List Nat) (chunk : List Nat) : List Nat :=
  match st, (sha256K.zip (messageSchedule chunk)).foldl roundStep st with
  | [a, b, c, d, e, f, g, h], [a2, b2, c2, d2, e2, f2, g2, h2] =>
    [w32 (a + a2), w32 (b + b2), w32 (c + c2), w32 (d + d2),
     w32 (e + e2), w32 (f + f2), w32 (g + g2), w32 (h + h2)]
  | other, _ => other

/-- The SHA-256 digest of a string, as eight 32-bit words. -/
def sha256Words (s : String) : List Nat :=
  (toChunks (padMessage (strBytes s))).foldl compress sha256H0

/-- The sixteen lowercase hexadecimal digit characters, in value order. -/
def hexChars : List Char := "0123456789abcdef".data

/-- The lowercase hexadecimal digit of a value below 16. -/
def hexDigitChar (n : Nat) : Char := hexChars.getD n 'f'

/-- Zero-padded 8-digit lowercase hex rendering of one 32-bit word. -/
def wordHex (w : Nat) : String :=
  String.mk ((List.range 8).map (fun i => hexDigitChar ((w >>> (4 * (7 - i))) % 16)))

/-- Concatenated hex rendering of a word list. -/
def hexOfWords : List Nat → String
  | [] => ""
  | w :: ws => wordHex w ++ hexOfWords ws

/-- Lowercase hex SHA-256 digest of a string: the value of
`crypto.SHA256(s).toString()` in the source. -/
def sha256Hex (s : String) : String := hexOfWords (sha256Words s)

/-- A JSON value as the backend serializes one.  The event payloads this
system writes (`userId`, `userEmail`, `action`, `fileName`, `fileURL`,
`timestamp`) are strings, numbers and nested objects, so those three forms
suffice for the embedding. -/
inductive Json where
  | str (s : String)
  | num (n : Int)
  | obj (fields : List (String × Json))

/-- JSON escape of one character, as `JSON.stringify` renders string
contents. -/
def escapeChar (c : Char) : String :=
  if c = '"' then "\\\""
  else if c = '\\' then "\\\\"
  else if c = '\x08' then "\\b"
  else if c = '\x09' then "\\t"
  else if c = '\x0a' then "\\n"
  else if c = '\x0c' then "\\f"
  else if c = '\x0d' then "\\r"
  else if c.toNat < 32 then
    "\\u00" ++ String.mk [hexDigitChar (c.toNat / 16), hexDigitChar (c.toNat % 16)]
  else String.singleton c

/-- A double-quoted, escaped JSON string literal. -/
def jsonQuote (s : String) : String :=
  "\"" ++ String.join (s.data.map escapeChar) ++ "\""

mutual

/-- Serialization as `JSON.stringify` performs it: object fields in
insertion order, no whitespace. -/
def Json.stringify : Json → String
  | .str s => jsonQuote s
  | .num n => toString n
  | .obj fs => "\x7b" ++ stringifyFields fs ++ "\x7d"

/-- Comma-separated `"key":value` renderings of an object's fields. -/
def stringifyFields : List (String × Json) → String
  | [] => ""
  | [(k, v)] => jsonQuote k ++ ":" ++ v.stringify
  | (k, v) :: rest => jsonQuote k ++ ":" ++ v.stringify ++ "," ++ stringifyFields rest

end

/-- One entry of the `blockchain` collection, with the four fields
`createNewBlock` stores. -/
structure Block where
  timestamp : Nat
  activity : Json
  previousHash : String
  hash : String

/-- The object `createNewBlock` serializes and digests: exactly the fields
`timestamp`, `activity`, `previousHash`, in that literal order.  The `hash`
field is attached to the block only after the digest is taken, so it is
never part of this list. -/
def hashedFields (t : Nat) (a : Json) (p : String) : List (String × Json) :=
  [("timestamp", Json.num (Int.ofNat t)), ("activity", a), ("previousHash", Json.str p)]

/-- The string `JSON.stringify(newBlock)` at the point the digest is taken
(before `newBlock.hash` exists). -/
def serializeBlock (t : Nat) (a : Json) (p : String) : String :=
  Json.stringify (Json.obj (hashedFields t a p))

/-- The stored block: the digest of the three-field serialization is
computed first and then attached as the `hash` field. -/
def mkBlock (t : Nat) (a : Json) (p : String) : Block :=
  { timestamp := t, activity := a, previousHash := p,
    hash := sha256Hex (serializeBlock t a p) }

/-- The `orderBy("timestamp", "desc").limit(1)` query over the stored
blocks: a block whose `timestamp` field is greatest, or none when the
collection is empty.  Firestore breaks timestamp ties by document id, which
the model cannot observe; this model keeps the earliest-inserted of tied
maxima (the claims about tip selection only concern stores with distinct
timestamps). -/
def getLatestBlock : List Block → Option Block
  | [] => none
  | b :: rest =>
    match getLatestBlock rest with
    | none => some b
    | some m => if m.timestamp > b.timestamp then some m else some b

/-- The `previousHash` value `createNewBlock` derives: `"0"` when the query
comes back empty (genesis case), else the `hash` field of the query's
block. -/
def derivePreviousHash (store : List Block) : String :=
  match getLatestBlock store with
  | none => "0"
  | some b => b.hash

/-- The success path of `createNewBlock`: read the latest block, derive
`previousHash`, build and hash the new block, append it.  `now` is the
`Date.now()` value the watcher assigns to the block. -/
def createNewBlock (store : List Block) (activityData : Json) (now : Nat) : List Block :=
  store ++ [mkBlock now activityData (derivePreviousHash store)]

/-- Process a list of `(activity, Date.now())` events in order, each one
through `createNewBlock`, starting from a given store. -/
def runFrom (store : List Block) : List (Json × Nat) → List Block
  | [] => store
  | e :: evs => runFrom (createNewBlock store e.1 e.2) evs

/-- The chain built by processing events one at a time from an empty
store. -/
def run (evs : List (Json × Nat)) : List Block := runFrom [] evs

/-- Fault injection for the two awaited Firestore calls inside
`createNewBlock`'s try-block: the latest-block read and the append.  `none`
means the call succeeds, `some e` means it throws error `e`. -/
structure StoreFaults where
  readErr : Option String
  addErr : Option String
deriving DecidableEq, Repr

/-- The try-block of `createNewBlock`: the latest-block read may throw, the
block is built and hashed, then the append may throw.  The append is a
single atomic durable write, so a failed append stores nothing. -/
def tryCreateBlock (f : StoreFaults) (store : List Block) (a : Json) (now : Nat) :
    Except String (List Block) :=
  match f.readErr with
  | some e => Except.error e
  | none =>
    match f.addErr with
    | some e => Except.error e
    | none => Except.ok (createNewBlock store a now)

/-- The whole of `createNewBlock` with its catch clause: any thrown error is logged via
`console.error` and swallowed, so the call always returns.  The result is
the store afterwards plus the error-log lines emitted. -/
def createNewBlockCaught (f : StoreFaults) (store : List Block) (a : Json) (now : Nat) :
    List Block × List String :=
  match tryCreateBlock f store a now with
  | Except.ok s => (s, [])
  | Except.error e => (store, ["Error creating new block: " ++ e])

/-- Run a list of events, each carrying the fault injection for its own
store calls, accumulating the store and the error log. -/
def runWithFaults (store : List Block) (logs : List String) :
    List (StoreFaults × Json × Nat) → List Block × List String
  | [] => (store, logs)
  | e :: evs =>
    let r := createNewBlockCaught e.1 store e.2.1 e.2.2
    runWithFaults r.1 (logs ++ r.2) evs

/-- Whether both store calls of an event succeed. -/
def faultFree (f : StoreFaults) : Bool := f.readErr == none && f.addErr == none

/-- The change types a Firestore `docChanges()` entry can carry. -/
inductive ChangeType where
  | added
  | modified
  | removed
deriving DecidableEq, Repr

/-- One entry of `querySnapshot.docChanges()`. -/
structure DocChange where
  type : ChangeType
  data : Json

/-- The watcher's dispatch condition: `createNewBlock` is invoked for a
change exactly when `change.type === 'added'`. -/
def triggersBlockCreation (c : DocChange) : Bool := c.type == ChangeType.added

/-- The activity payloads the watcher chains from one snapshot: the data of
exactly the changes whose type is `added`. -/
def chainedFromSnapshot (changes : List DocChange) : List Json :=
  (changes.filter triggersBlockCreation).map (fun c => c.data)

/-- Firestore `onSnapshot` semantics for the first snapshot (behavior of the
external store client, not of the repository's code): a brand-new listener's
first snapshot reports every document already in the collection as a
`docChanges()` entry of type `added`. -/
def initialSnapshotChanges (docs : List Json) : List DocChange :=
  docs.map (fun d => { type := ChangeType.added, data := d })

/-- The utility `clearCollection`, modelled on the number of documents in the
collection: each round fetches up to 500 documents; an empty snapshot
returns immediately with no batch commit; otherwise the page is deleted in
one batch commit and the function recurses when the page was full.  The
result is the remaining document count and the list of batch-deleted page
sizes, in order. -/
def clearCollection (n : Nat) : Nat × List Nat :=
  if min n 500 = 0 then (n, [])
  else if min n 500 = 500 then
    let rest := clearCollection (n - 500)
    (rest.1, 500 :: rest.2)
  else (n - min n 500, [min n 500])
termination_by n
decreasing_by omega

/-- One `activityLogs` document as the dashboard reads it. -/
structure ActivityLog where
  id : String
  userId : String
  userEmail : String
  action : String
  fileName : String
  timestamp : Nat
deriving DecidableEq, Repr

/-- The dashboard's `getFileType` helper: guess a type from the extension
(the part after the last dot, lowercased). -/
def getFileType (fileName : String) : String :=
  let extension := ((fileName.splitOn ".").getLastD "").toLower
  if extension ∈ ["jpg", "jpeg", "png", "gif"] then "image"
  else if extension ∈ ["pdf", "doc", "docx", "txt"] then "doc"
  else "generic"

/-- One entry of the dashboard's derived file list. -/
structure FileEntry where
  id : String
  name : String
  type : String
  timestamp : Nat
deriving DecidableEq, Repr

/-- JavaScript `Map.set`: replace in place when the key exists, else append
(insertion order is preserved). -/
def mapSet (m : List (String × FileEntry)) (k : String) (v : FileEntry) :
    List (String × FileEntry) :=
  if m.any (fun kv => kv.1 == k) then m.map (fun kv => if kv.1 == k then (k, v) else kv)
  else m ++ [(k, v)]

/-- JavaScript `Map.delete`. -/
def mapDelete (m : List (String × FileEntry)) (k : String) : List (String × FileEntry) :=
  m.filter (fun kv => kv.1 != k)

/-- JavaScript `String.prototype.startsWith`, over the character
sequences. -/
def strStartsWith (s pre : String) : Bool := pre.data.isPrefixOf s.data

/-- One step of the dashboard's fold over the activity log: actions starting
with `UPLOAD_FILE` set the file entry, `DELETE_FILE` removes it, anything
else is ignored. -/
def fileMapStep (m : List (String × FileEntry)) (log : ActivityLog) :
    List (String × FileEntry) :=
  if strStartsWith log.action "UPLOAD_FILE" then
    mapSet m log.fileName
      { id := log.id, name := log.fileName, type := getFileType log.fileName,
        timestamp := log.timestamp }
  else if log.action == "DELETE_FILE" then mapDelete m log.fileName
  else m

/-- The dashboard's derived current-files view: fold the activity log in
ascending order through the file map and take the values in insertion
order. -/
def deriveFiles (logs : List ActivityLog) : List FileEntry :=
  (logs.foldl fileMapStep []).map (fun kv => kv.2)

/-- Modelled from the spec: the reason component of a verification failure
(the repository ships no ChainVerifier; §4.4 of the spec defines it). -/
inductive VerifyReason where
  | HashMismatch
  | LinkageMismatch
  | EmptyChain
deriving DecidableEq, Repr

/-- Modelled from the spec: the result of chain verification. -/
inductive VerificationResult where
  | Valid
  | Invalid (atIndex : Nat) (reason : VerifyReason)
deriving DecidableEq, Repr

/-- Whether a stored block's `hash` field equals the recomputed digest of
its own three-field serialization (HashLinker's serialization-plus-digest
step applied to the stored fields). -/
def blockHashOk (b : Block) : Bool :=
  b.hash == sha256Hex (serializeBlock b.timestamp b.activity b.previousHash)

/-- Modelled from the spec: the checks applied to one block.  `prev` is
`none` at index 0, where the genesis sentinel `"0"` is required before the
digest check, and carries the previous block's hash at later indices, where
the digest check precedes the linkage check — following the order of §4.4. -/
def checkBlock (prev : Option String) (b : Block) : Option VerifyReason :=
  match prev with
  | none =>
    if b.previousHash ≠ "0" then some VerifyReason.LinkageMismatch
    else if ¬ blockHashOk b then some VerifyReason.HashMismatch
    else none
  | some p =>
    if ¬ blockHashOk b then some VerifyReason.HashMismatch
    else if b.previousHash ≠ p then some VerifyReason.LinkageMismatch
    else none

/-- Modelled from the spec: ascending scan of the chain, returning the first
violation found (short-circuit) or `Valid`. -/
def verifyFrom (prev : Option String) (i : Nat) : List Block → VerificationResult
  | [] => VerificationResult.Valid
  | b :: rest =>
    match checkBlock prev b with
    | some r => VerificationResult.Invalid i r
    | none => verifyFrom (some b.hash) (i + 1) rest

/-- Modelled from the spec: `ChainVerifier.verify` over the fetched chain in
ascending order; an empty chain is trivially valid. -/
def verify (chain : List Block) : VerificationResult := verifyFrom none 0 chain

/-- The violation, if any, that the checks of `verify` find at index `i` of
the chain, independent of the scan order. -/
def checkAt (chain : List Block) (i : Nat) : Option VerifyReason :=
  match chain.get? i with
  | none => none
  | some b =>
    checkBlock (if i = 0 then none else (chain.get? (i - 1)).map (fun c => c.hash)) b

/-- Hash-linkage invariant of a block sequence, relative to the
`previousHash` value `p` its first block must carry: every block's `hash`
field is the digest of its own three-field serialization, the first block
points at `p`, and each later block points at its predecessor's hash. -/
def linkedFrom (p : String) : List Block → Prop
  | [] => True
  | b :: rest =>
    b.previousHash = p
      ∧ b.hash = sha256Hex (serializeBlock b.timestamp b.activity b.previousHash)
      ∧ linkedFrom b.hash rest

/-- The hash the next block must point at: the last block's hash, or `p`
when the sequence is empty. -/
def lastHash (p : String) (l : List Block) : String :=
  ((l.getLast?).map (fun b => b.hash)).getD p

/-- Lookup of a top-level field of a JSON object. -/
def jsonField (a : Json) (k : String) : Option Json :=
  match a with
  | Json.obj fs => (fs.find? (fun kv => kv.1 == k)).map (fun kv => kv.2)
  | _ => none

/-- Index-shift on a verification result, mirroring the index accumulator of
`verifyFrom`. -/
def bumpIndex : VerificationResult → VerificationResult
  | VerificationResult.Valid => VerificationResult.Valid
  | VerificationResult.Invalid i r => VerificationResult.Invalid (i + 1) r

/-- The violation the checks find at index `i` of a block sequence whose
first block must point at `prev`. -/
def checkAtFrom (prev : Option String) (l : List Block) (i : Nat) : Option VerifyReason :=
  match l.get? i with
  | none => none
  | some b =>
    checkBlock (if i = 0 then prev else (l.get? (i - 1)).map (fun c => c.hash)) b

/-- Sample upload event payload, with the client-assigned timestamp `1`
inside the activity. -/
def actUpload : Json :=
  Json.obj [("userId", Json.str "u1"), ("userEmail", Json.str "u@x"),
    ("action", Json.str "UPLOAD_FILE"), ("fileName", Json.str "a.txt"),
    ("timestamp", Json.num 1)]

/-- Sample delete event payload for the same file. -/
def actDelete : Json :=
  Json.obj [("userId", Json.str "u1"), ("userEmail", Json.str "u@x"),
    ("action", Json.str "DELETE_FILE"), ("fileName", Json.str "a.txt"),
    ("timestamp", Json.num 2)]

/-- The two-event scenario of the spec: upload of `a.txt`, then deletion of
`a.txt`, with watcher clock values 100 and 200. -/
def scenarioEvents : List (Json × Nat) := [(actUpload, 100), (actDelete, 200)]

/-- The upload event as the dashboard reads it from `activityLogs`. -/
def uploadLog : ActivityLog :=
  { id := "1", userId := "u1", userEmail := "u@x", action := "UPLOAD_FILE",
    fileName := "a.txt", timestamp := 1 }

/-- The delete event as the dashboard reads it from `activityLogs`. -/
def deleteLog : ActivityLog :=
  { id := "2", userId := "u1", userEmail := "u@x", action := "DELETE_FILE",
    fileName := "a.txt", timestamp := 2 }

/-- Sample event payload with client-assigned timestamp `5`, for the
timestamp-source analysis. -/
def clientActivity : Json :=
  Json.obj [("userId", Json.str "u1"), ("userEmail", Json.str "u@x"),
    ("action", Json.str "UPLOAD_FILE"), ("fileName", Json.str "a.txt"),
    ("timestamp", Json.num 5)]

/-- Concrete two-event list for exercising the chain invariant. -/
def c2Events : List (Json × Nat) := [(actUpload, 11), (actDelete, 22)]

/-- Concrete two-event list for exercising the genesis-sentinel property. -/
def c10Events : List (Json × Nat) := [(actUpload, 4), (actDelete, 8)]

/-- Three events whose `Date.now()` readings all tie at 5: the code nowhere
prevents two block creations within the same millisecond, so these runs are
reachable. -/
def tiedEvents : List (Json × Nat) :=
  [(Json.obj [("a", Json.num 1)], 5), (Json.obj [("a", Json.num 1)], 5),
   (Json.obj [("a", Json.num 1)], 5)]

theorem hexDigitChar_mem (n : Nat) : hexDigitChar n ∈ hexChars := by
  unfold hexDigitChar
  by_cases h : n < hexChars.length
  · rw [List.getD_eq_getElem hexChars _ h]
    exact List.getElem_mem h
  · rw [List.getD_eq_default hexChars _ (Nat.le_of_not_lt h)]
    decide

theorem wordHex_length (w : Nat) : (wordHex w).length = 8 := by
  show ((List.range 8).map _).length = 8
  simp

theorem wordHex_chars (w : Nat) : ∀ c ∈ (wordHex w).data, c ∈ hexChars := by
  intro c hc
  have hc2 : c ∈ (List.range 8).map (fun i => hexDigitChar ((w >>> (4 * (7 - i))) % 16)) := hc
  simp only [List.mem_map] at hc2
  obtain ⟨i, _, rfl⟩ := hc2
  exact hexDigitChar_mem _

theorem hexOfWords_length (ws : List Nat) : (hexOfWords ws).length = 8 * ws.length := by
  induction ws with
  | nil => rfl
  | cons w ws ih =>
    rw [hexOfWords, String.length_append, wordHex_length, ih, List.length_cons]
    ring

theorem hexOfWords_chars (ws : List Nat) : ∀ c ∈ (hexOfWords ws).data, c ∈ hexChars := by
  induction ws with
  | nil => intro c hc; exact absurd hc (List.not_mem_nil c)
  | cons w ws ih =>
    intro c hc
    rw [hexOfWords, String.data_append] at hc
    rcases List.mem_append.mp hc with h | h
    · exact wordHex_chars w c h
    · exact ih c h

theorem roundStep_length (st : List Nat) (kw : Nat × Nat) :
    (roundStep st kw).length = st.length := by
  unfold roundStep
  split <;> simp_all

theorem foldl_roundStep_length (kws : List (Nat × Nat)) :
    ∀ st : List Nat, (kws.foldl roundStep st).length = st.length := by
  induction kws with
  | nil => intro st; rfl
  | cons kw kws ih => intro st; rw [List.foldl_cons, ih, roundStep_length]

theorem compress_length (st chunk : List Nat) : (compress st chunk).length = st.length := by
  unfold compress
  split <;> simp_all

theorem sha256Words_length (s : String) : (sha256Words s).length = 8 := by
  unfold sha256Words
  have h : ∀ (chunks : List (List Nat)) (st : List Nat),
      (chunks.foldl compress st).length = st.length := by
    intro chunks
    induction chunks with
    | nil => intro st; rfl
    | cons c cs ih => intro st; rw [List.foldl_cons, ih, compress_length]
  rw [h]
  rfl

theorem sha256Hex_length (s : String) : (sha256Hex s).length = 64 := by
  unfold sha256Hex
  rw [hexOfWords_length, sha256Words_length]

theorem sha256Hex_chars (s : String) : ∀ c ∈ (sha256Hex s).data, c ∈ hexChars := by
  intro c hc
  exact hexOfWords_chars _ c hc

theorem sha256Hex_ne_genesis (s : String) : sha256Hex s ≠ "0" := by
  intro h
  have h2 : (sha256Hex s).length = ("0" : String).length := congrArg String.length h
  rw [sha256Hex_length] at h2
  exact absurd h2 (by decide)

theorem getLatestBlock_cons (a : Block) (rest : List Block) :
    getLatestBlock (a :: rest)
      = match getLatestBlock rest with
        | none => some a
        | some m => if m.timestamp > a.timestamp then some m else some a := rfl

theorem getLatestBlock_ne_none (a : Block) (rest : List Block) :
    getLatestBlock (a :: rest) ≠ none := by
  rw [getLatestBlock_cons]
  cases h : getLatestBlock rest
  · simp
  · simp only []
    split <;> simp

theorem getLatestBlock_mem :
    ∀ (l : List Block) (b : Block), getLatestBlock l = some b → b ∈ l := by
  intro l
  induction l with
  | nil => intro b h; cases h
  | cons a rest ih =>
    intro b h
    rw [getLatestBlock_cons] at h
    split at h
    · cases h
      exact List.mem_cons_self a rest
    · rename_i m hm
      split at h
      · cases h
        exact List.mem_cons_of_mem a (ih b hm)
      · cases h
        exact List.mem_cons_self a rest

theorem getLatestBlock_max :
    ∀ (l : List Block) (b : Block), getLatestBlock l = some b →
      ∀ c ∈ l, c.timestamp ≤ b.timestamp := by
  intro l
  induction l with
  | nil => intro b h; cases h
  | cons a rest ih =>
    intro b h c hc
    rw [getLatestBlock_cons] at h
    split at h
    · rename_i hnone
      cases h
      rcases List.mem_cons.mp hc with rfl | hcr
      · exact Nat.le_refl _
      · cases rest with
        | nil => cases hcr
        | cons r rs => exact absurd hnone (getLatestBlock_ne_none r rs)
    · rename_i m hm
      split at h
      · rename_i hlt
        cases h
        rcases List.mem_cons.mp hc with rfl | hcr
        · exact Nat.le_of_lt hlt
        · exact ih b hm c hcr
      · rename_i hnlt
        cases h
        rcases List.mem_cons.mp hc with rfl | hcr
        · exact Nat.le_refl _
        · exact Nat.le_trans (ih m hm c hcr) (Nat.le_of_not_lt hnlt)

theorem getLatestBlock_append_max (b : Block) :
    ∀ l : List Block, (∀ c ∈ l, c.timestamp < b.timestamp) →
      getLatestBlock (l ++ [b]) = some b := by
  intro l
  induction l with
  | nil => intro _; rfl
  | cons a rest ih =>
    intro h
    have hrec := ih (fun c hc => h c (List.mem_cons_of_mem a hc))
    have hab : a.timestamp < b.timestamp := h a (List.mem_cons_self a rest)
    show getLatestBlock (a :: (rest ++ [b])) = some b
    rw [getLatestBlock_cons, hrec]
    simp [hab]

theorem lastHash_concat (p : String) (l : List Block) (b : Block) :
    lastHash p (l ++ [b]) = b.hash := by
  unfold lastHash
  rw [List.getLast?_concat]
  rfl

theorem derivePreviousHash_append_max (b : Block) (l : List Block)
    (h : ∀ c ∈ l, c.timestamp < b.timestamp) :
    derivePreviousHash (l ++ [b]) = b.hash := by
  unfold derivePreviousHash
  rw [getLatestBlock_append_max b l h]

theorem lastHash_cons (p : String) (a : Block) (l : List Block) :
    lastHash p (a :: l) = lastHash a.hash l := by
  cases l with
  | nil => rfl
  | cons r rs =>
    unfold lastHash
    rw [List.getLast?_cons_cons]
    cases h : (r :: rs).getLast? with
    | none => exact absurd (List.getLast?_eq_none_iff.mp h) (by simp)
    | some x => rfl

theorem linkedFrom_append (b : Block) :
    ∀ (p : String) (l : List Block), linkedFrom p l →
      b.previousHash = lastHash p l →
      b.hash = sha256Hex (serializeBlock b.timestamp b.activity b.previousHash) →
      linkedFrom p (l ++ [b]) := by
  intro p l
  induction l generalizing p with
  | nil => intro _ h1 h2; exact ⟨h1, h2, trivial⟩
  | cons a rest ih =>
    intro hl hprev hhash
    obtain ⟨ha1, ha2, ha3⟩ := hl
    rw [lastHash_cons] at hprev
    exact ⟨ha1, ha2, ih a.hash ha3 hprev hhash⟩

theorem runFrom_linked :
    ∀ (evs : List (Json × Nat)) (store : List Block),
      linkedFrom "0" store →
      derivePreviousHash store = lastHash "0" store →
      (∀ c ∈ store, ∀ e ∈ evs, c.timestamp < e.2) →
      (evs.map Prod.snd).Pairwise (· < ·) →
      linkedFrom "0" (runFrom store evs) := by
  intro evs
  induction evs with
  | nil => intro store h _ _ _; exact h
  | cons e evs ih =>
    intro store hlink hder hlt hts
    rw [List.map_cons, List.pairwise_cons] at hts
    rw [runFrom]
    have hmax : ∀ c ∈ store, c.timestamp < (mkBlock e.2 e.1 (derivePreviousHash store)).timestamp :=
      fun c hc => hlt c hc e (List.mem_cons_self e evs)
    apply ih
    · exact linkedFrom_append _ "0" store hlink hder rfl
    · show derivePreviousHash (store ++ [mkBlock e.2 e.1 (derivePreviousHash store)])
          = lastHash "0" (store ++ [mkBlock e.2 e.1 (derivePreviousHash store)])
      rw [derivePreviousHash_append_max _ store hmax, lastHash_concat]
    · intro c hc e2 he2
      rcases List.mem_append.mp hc with h | h
      · exact hlt c h e2 (List.mem_cons_of_mem e he2)
      · rcases List.mem_singleton.mp h with rfl
        exact hts.1 e2.2 (List.mem_map_of_mem Prod.snd he2)
    · exact hts.2

theorem linkedFrom_get :
    ∀ (l : List Block) (p : String), linkedFrom p l →
      ∀ i (hi : i < l.length),
        ((l.get ⟨i, hi⟩).hash
            = sha256Hex (serializeBlock (l.get ⟨i, hi⟩).timestamp
                (l.get ⟨i, hi⟩).activity (l.get ⟨i, hi⟩).previousHash))
        ∧ (i = 0 → (l.get ⟨i, hi⟩).previousHash = p)
        ∧ ∀ (hj : i - 1 < l.length), 0 < i →
            (l.get ⟨i, hi⟩).previousHash = (l.get ⟨i - 1, hj⟩).hash := by
  intro l
  induction l with
  | nil => intro p _ i hi; exact absurd hi (Nat.not_lt_zero i)
  | cons a rest ih =>
    intro p hl i hi
    obtain ⟨h1, h2, h3⟩ := hl
    match i with
    | 0 =>
      refine ⟨h2, fun _ => h1, ?_⟩
      intro _ h0
      exact absurd h0 (Nat.lt_irrefl 0)
    | Nat.succ k =>
      have hk : k < rest.length := Nat.lt_of_succ_lt_succ hi
      have hrec := ih a.hash h3 k hk
      refine ⟨hrec.1, fun h0 => absurd h0 (Nat.succ_ne_zero k), ?_⟩
      intro hj _
      match k with
      | 0 => exact (ih a.hash h3 0 hk).2.1 rfl
      | Nat.succ m =>
        have hm : Nat.succ m - 1 < rest.length := by
          simp only [List.length_cons] at hj
          omega
        have := (ih a.hash h3 (Nat.succ m) hk).2.2 hm (Nat.succ_pos m)
        simpa using this

theorem bumpIndex_eq_valid (x : VerificationResult) :
    bumpIndex x = VerificationResult.Valid ↔ x = VerificationResult.Valid := by
  cases x <;> simp [bumpIndex]

theorem bumpIndex_eq_invalid_succ (x : VerificationResult) (k : Nat) (r : VerifyReason) :
    bumpIndex x = VerificationResult.Invalid (k + 1) r ↔ x = VerificationResult.Invalid k r := by
  cases x <;> simp [bumpIndex]

theorem bumpIndex_ne_invalid_zero (x : VerificationResult) (r : VerifyReason) :
    bumpIndex x ≠ VerificationResult.Invalid 0 r := by
  cases x <;> simp [bumpIndex]

theorem verifyFrom_bump (l : List Block) :
    ∀ (prev : Option String) (i : Nat),
      verifyFrom prev (i + 1) l = bumpIndex (verifyFrom prev i l) := by
  induction l with
  | nil => intro prev i; rfl
  | cons b rest ih =>
    intro prev i
    rw [verifyFrom, verifyFrom]
    cases h : checkBlock prev b with
    | some r => rfl
    | none => exact ih (some b.hash) (i + 1)

theorem checkAtFrom_zero (prev : Option String) (b : Block) (rest : List Block) :
    checkAtFrom prev (b :: rest) 0 = checkBlock prev b := rfl

theorem checkAtFrom_nil (prev : Option String) (j : Nat) : checkAtFrom prev [] j = none := by
  unfold checkAtFrom
  rw [List.get?_nil]

theorem checkAtFrom_cons_succ (prev : Option String) (b : Block) (rest : List Block) (j : Nat) :
    checkAtFrom prev (b :: rest) (j + 1) = checkAtFrom (some b.hash) rest j := by
  cases j with
  | zero => rfl
  | succ k => rfl

theorem verifyFrom_valid_iff :
    ∀ (l : List Block) (prev : Option String),
      verifyFrom prev 0 l = VerificationResult.Valid ↔ ∀ j, checkAtFrom prev l j = none := by
  intro l
  induction l with
  | nil =>
    intro prev
    constructor
    · intro _ j
      exact checkAtFrom_nil prev j
    · intro _
      rfl
  | cons b rest ih =>
    intro prev
    rw [verifyFrom]
    cases h : checkBlock prev b with
    | some r =>
      constructor
      · intro hv
        cases hv
      · intro hall
        have h0 := hall 0
        rw [checkAtFrom_zero, h] at h0
        cases h0
    | none =>
      have hb : verifyFrom (some b.hash) 1 rest = bumpIndex (verifyFrom (some b.hash) 0 rest) :=
        verifyFrom_bump rest (some b.hash) 0
      rw [hb, bumpIndex_eq_valid, ih (some b.hash)]
      constructor
      · intro hall j
        cases j with
        | zero => rw [checkAtFrom_zero, h]
        | succ k => rw [checkAtFrom_cons_succ]; exact hall k
      · intro hall j
        have := hall (j + 1)
        rw [checkAtFrom_cons_succ] at this
        exact this

theorem verifyFrom_invalid_iff :
    ∀ (l : List Block) (prev : Option String) (i : Nat) (r : VerifyReason),
      verifyFrom prev 0 l = VerificationResult.Invalid i r ↔
        (checkAtFrom prev l i = some r ∧ ∀ j, j < i → checkAtFrom prev l j = none) := by
  intro l
  induction l with
  | nil =>
    intro prev i r
    constructor
    · intro h
      cases h
    · rintro ⟨h, -⟩
      rw [checkAtFrom_nil] at h
      cases h
  | cons b rest ih =>
    intro prev i r
    rw [verifyFrom]
    cases h : checkBlock prev b with
    | some r0 =>
      cases i with
      | zero =>
        constructor
        · intro hv
          cases hv
          exact ⟨by rw [checkAtFrom_zero, h], fun j hj => absurd hj (Nat.not_lt_zero j)⟩
        · rintro ⟨h0, -⟩
          rw [checkAtFrom_zero, h] at h0
          cases h0
          rfl
      | succ k =>
        constructor
        · intro hv
          cases hv
        · rintro ⟨-, hlt⟩
          have h0 := hlt 0 (Nat.succ_pos k)
          rw [checkAtFrom_zero, h] at h0
          cases h0
    | none =>
      have hb : verifyFrom (some b.hash) 1 rest = bumpIndex (verifyFrom (some b.hash) 0 rest) :=
        verifyFrom_bump rest (some b.hash) 0
      rw [hb]
      cases i with
      | zero =>
        constructor
        · intro hv
          exact absurd hv (bumpIndex_ne_invalid_zero _ r)
        · rintro ⟨h0, -⟩
          rw [checkAtFrom_zero, h] at h0
          cases h0
      | succ k =>
        rw [bumpIndex_eq_invalid_succ, ih (some b.hash) k r]
        constructor
        · rintro ⟨hk, hlt⟩
          refine ⟨by rw [checkAtFrom_cons_succ]; exact hk, ?_⟩
          intro j hj
          cases j with
          | zero => rw [checkAtFrom_zero, h]
          | succ m =>
            rw [checkAtFrom_cons_succ]
            exact hlt m (Nat.lt_of_succ_lt_succ hj)
        · rintro ⟨hk, hlt⟩
          rw [checkAtFrom_cons_succ] at hk
          refine ⟨hk, ?_⟩
          intro m hm
          have := hlt (m + 1) (Nat.succ_lt_succ hm)
          rw [checkAtFrom_cons_succ] at this
          exact this

theorem runWithFaults_store :
    ∀ (evs : List (StoreFaults × Json × Nat)) (store : List Block) (logs : List String),
      (runWithFaults store logs evs).1
        = runFrom store ((evs.filter (fun e => faultFree e.1)).map (fun e => e.2)) := by
  intro evs
  induction evs with
  | nil => intro store logs; rfl
  | cons e evs ih =>
    intro store logs
    rw [runWithFaults]
    cases hr : e.1.readErr with
    | some msg =>
      have hff : faultFree e.1 = false := by
        unfold faultFree
        rw [hr]
        rfl
      have hc : createNewBlockCaught e.1 store e.2.1 e.2.2 = (store, ["Error creating new block: " ++ msg]) := by
        unfold createNewBlockCaught tryCreateBlock
        rw [hr]
      rw [hc]
      rw [List.filter_cons_of_neg (by rw [hff]; exact Bool.false_ne_true)]
      exact ih store (logs ++ ["Error creating new block: " ++ msg])
    | none =>
      cases ha : e.1.addErr with
      | some msg =>
        have hff : faultFree e.1 = false := by
          unfold faultFree
          rw [hr, ha]
          rfl
        have hc : createNewBlockCaught e.1 store e.2.1 e.2.2 = (store, ["Error creating new block: " ++ msg]) := by
          unfold createNewBlockCaught tryCreateBlock
          rw [hr, ha]
        rw [hc]
        rw [List.filter_cons_of_neg (by rw [hff]; exact Bool.false_ne_true)]
        exact ih store (logs ++ ["Error creating new block: " ++ msg])
      | none =>
        have hff : faultFree e.1 = true := by
          unfold faultFree
          rw [hr, ha]
          rfl
        have hc : createNewBlockCaught e.1 store e.2.1 e.2.2 = (createNewBlock store e.2.1 e.2.2, []) := by
          unfold createNewBlockCaught tryCreateBlock
          rw [hr, ha]
        have hfil : (e :: evs).filter (fun x => faultFree x.1)
            = e :: evs.filter (fun x => faultFree x.1) := by
          simp [List.filter_cons, hff]
        rw [hc, hfil, List.map_cons, runFrom]
        exact ih (createNewBlock store e.2.1 e.2.2) (logs ++ [])

theorem runWithFaults_logs :
    ∀ (evs : List (StoreFaults × Json × Nat)) (store : List Block) (logs : List String),
      (runWithFaults store logs evs).2.length
        = logs.length + (evs.countP (fun e => ! faultFree e.1)) := by
  intro evs
  induction evs with
  | nil =>
    intro store logs
    rw [runWithFaults, List.countP_nil]
    rfl
  | cons e evs ih =>
    intro store logs
    rw [runWithFaults, List.countP_cons]
    cases hr : e.1.readErr with
    | some msg =>
      have hff : faultFree e.1 = false := by
        unfold faultFree
        rw [hr]
        rfl
      have hc : createNewBlockCaught e.1 store e.2.1 e.2.2 = (store, ["Error creating new block: " ++ msg]) := by
        unfold createNewBlockCaught tryCreateBlock
        rw [hr]
      rw [hc, ih, List.length_append, hff]
      simp
      omega
    | none =>
      cases ha : e.1.addErr with
      | some msg =>
        have hff : faultFree e.1 = false := by
          unfold faultFree
          rw [hr, ha]
          rfl
        have hc : createNewBlockCaught e.1 store e.2.1 e.2.2 = (store, ["Error creating new block: " ++ msg]) := by
          unfold createNewBlockCaught tryCreateBlock
          rw [hr, ha]
        rw [hc, ih, List.length_append, hff]
        simp
        omega
      | none =>
        have hff : faultFree e.1 = true := by
          unfold faultFree
          rw [hr, ha]
          rfl
        have hc : createNewBlockCaught e.1 store e.2.1 e.2.2 = (createNewBlock store e.2.1 e.2.2, []) := by
          unfold createNewBlockCaught tryCreateBlock
          rw [hr, ha]
        rw [hc, ih, List.length_append, hff]
        simp

theorem runFrom_hash_shaped :
    ∀ (evs : List (Json × Nat)) (store : List Block),
      (∀ b ∈ store, ∃ s, b.hash = sha256Hex s) →
      (∀ i b, store.get? i = some b → 0 < i → ∃ s, b.previousHash = sha256Hex s) →
      (∀ b ∈ runFrom store evs, ∃ s, b.hash = sha256Hex s)
      ∧ (∀ i b, (runFrom store evs).get? i = some b → 0 < i →
          ∃ s, b.previousHash = sha256Hex s) := by
  intro evs
  induction evs with
  | nil => intro store h1 h2; exact ⟨h1, h2⟩
  | cons e evs ih =>
    intro store h1 h2
    rw [runFrom]
    apply ih
    · intro b hb
      unfold createNewBlock at hb
      rcases List.mem_append.mp hb with h | h
      · exact h1 b h
      · rcases List.mem_singleton.mp h with rfl
        exact ⟨serializeBlock e.2 e.1 (derivePreviousHash store), rfl⟩
    · intro i b hget hpos
      unfold createNewBlock at hget
      by_cases hi : i < store.length
      · rw [List.get?_append hi] at hget
        exact h2 i b hget hpos
      · rw [List.get?_append_right (Nat.le_of_not_lt hi)] at hget
        cases hd : i - store.length with
        | succ k =>
          rw [hd] at hget
          rw [List.get?_cons_succ, List.get?_nil] at hget
          cases hget
        | zero =>
          rw [hd] at hget
          rw [List.get?_cons_zero] at hget
          cases hget
          have hsl : 0 < store.length := by omega
          cases store with
          | nil => exact absurd hsl (Nat.lt_irrefl 0)
          | cons x xs =>
            cases hm : getLatestBlock (x :: xs) with
            | none => exact absurd hm (getLatestBlock_ne_none x xs)
            | some m =>
              obtain ⟨s, hs⟩ := h1 m (getLatestBlock_mem _ _ hm)
              refine ⟨s, ?_⟩
              show derivePreviousHash (x :: xs) = sha256Hex s
              unfold derivePreviousHash
              rw [hm]
              exact hs

theorem checkAt_eq_checkAtFrom (chain : List Block) (i : Nat) :
    checkAt chain i = checkAtFrom none chain i := rfl

/-- C1: for every created block, the stored `hash` field equals the
hex-encoded SHA-256 digest of the serialization of an object containing
exactly the fields `timestamp`, `activity`, `previousHash` in that fixed
order; the `hash` field is attached only after the digest is computed, so
the digest never covers the `hash` field — recomputing the digest from the
stored block's own three fields reproduces the stored hash, and the other
stored fields are exactly the inputs. -/
theorem C1_block_hash (t : Nat) (a : Json) (p : String) :
    (mkBlock t a p).hash = sha256Hex (serializeBlock t a p)
    ∧ serializeBlock t a p
        = Json.stringify (Json.obj [("timestamp", Json.num (Int.ofNat t)), ("activity", a),
            ("previousHash", Json.str p)])
    ∧ (mkBlock t a p).hash
        = sha256Hex (serializeBlock (mkBlock t a p).timestamp (mkBlock t a p).activity
            (mkBlock t a p).previousHash)
    ∧ (mkBlock t a p).timestamp = t ∧ (mkBlock t a p).activity = a
    ∧ (mkBlock t a p).previousHash = p :=
  ⟨rfl, rfl, rfl, rfl, rfl, rfl⟩

/-- C2 amended: starting from an empty store and processing events one at a
time through block creation, PROVIDED the successive `Date.now()` readings
strictly increase, every reachable chain state satisfies: the block at
position 0 has `previousHash = "0"`, every block at position `i > 0` has
`previousHash` equal to the hash of the block at position `i - 1`, and
every block's `hash` equals the digest of the serialization of its own
timestamp, activity and previousHash.  The proviso is forced by the
counterexample below: with tied `Date.now()` readings the
descending-by-timestamp limit-1 query may return a tied earlier block, and
the positional-predecessor linkage fails. -/
theorem C2_chain_invariant (evs : List (Json × Nat))
    (hts : (evs.map Prod.snd).Pairwise (· < ·)) :
    ∀ i (hi : i < (run evs).length),
      ((run evs).get ⟨i, hi⟩).hash
          = sha256Hex (serializeBlock ((run evs).get ⟨i, hi⟩).timestamp
              ((run evs).get ⟨i, hi⟩).activity ((run evs).get ⟨i, hi⟩).previousHash)
      ∧ (i = 0 → ((run evs).get ⟨i, hi⟩).previousHash = "0")
      ∧ ∀ (hj : i - 1 < (run evs).length), 0 < i →
          ((run evs).get ⟨i, hi⟩).previousHash = ((run evs).get ⟨i - 1, hj⟩).hash := by
  have hlink : linkedFrom "0" (run evs) :=
    runFrom_linked evs [] True.intro rfl (fun c hc => absurd hc (List.not_mem_nil c)) hts
  intro i hi
  exact linkedFrom_get (run evs) "0" hlink i hi

/-- Witness for C2: in the concrete two-event run, the second block links
to the first block's hash. -/
theorem C2_chain_invariant_witness :
    ((run c2Events).get ⟨1, by decide⟩).previousHash
      = ((run c2Events).get ⟨0, by decide⟩).hash := by
  have h := C2_chain_invariant c2Events (by decide) 1 (by decide)
  exact h.2.2 (by decide) (by decide)

set_option maxHeartbeats 0 in
set_option maxRecDepth 10000 in
unseal toChunks in
/-- C2 counterexample: with three events whose `Date.now()` readings all
tie at 5 (chain states the unconditional claim covers, since the code
nowhere serializes block creations across milliseconds), the block at
position 2 does not link to the block at position 1: the tip query returns
a tied maximum (the earliest-inserted one, block 0), so its
`previousHash` is block 0's digest, not block 1's. -/
theorem C2_counterexample :
    ((run tiedEvents).get ⟨2, by decide⟩).previousHash
      ≠ ((run tiedEvents).get ⟨1, by decide⟩).hash := by decide

/-- C3: when a new block is created, its `previousHash` is `"0"` when the
block store is empty (genesis case); otherwise it equals the `hash` field
of the block returned by the descending-by-timestamp limit-1 query, which
is a stored block of maximal timestamp. -/
theorem C3_previous_hash (store : List Block) (a : Json) (now : Nat) :
    (store = [] → createNewBlock store a now = [mkBlock now a "0"])
    ∧ (store ≠ [] → ∃ b, getLatestBlock store = some b ∧ b ∈ store
        ∧ (∀ c ∈ store, c.timestamp ≤ b.timestamp)
        ∧ createNewBlock store a now = store ++ [mkBlock now a b.hash]) := by
  constructor
  · rintro rfl
    rfl
  · intro hne
    cases hm : getLatestBlock store with
    | none =>
      cases store with
      | nil => exact absurd rfl hne
      | cons x xs => exact absurd hm (getLatestBlock_ne_none x xs)
    | some b =>
      refine ⟨b, rfl, getLatestBlock_mem store b hm, getLatestBlock_max store b hm, ?_⟩
      unfold createNewBlock derivePreviousHash
      rw [hm]

/-- Witness for C3: genesis case on the empty store, and the linking case
on a one-block store. -/
theorem C3_previous_hash_witness :
    createNewBlock [] actUpload 5 = [mkBlock 5 actUpload "0"]
    ∧ createNewBlock [mkBlock 3 actUpload "0"] actDelete 7
        = [mkBlock 3 actUpload "0", mkBlock 7 actDelete (mkBlock 3 actUpload "0").hash] := by
  constructor
  · exact (C3_previous_hash [] actUpload 5).1 rfl
  · obtain ⟨b, hb, -, -, heq⟩ :=
      (C3_previous_hash [mkBlock 3 actUpload "0"] actDelete 7).2 (by simp)
    have hx : getLatestBlock [mkBlock 3 actUpload "0"] = some (mkBlock 3 actUpload "0") := rfl
    rw [hx] at hb
    cases hb
    exact heq

/-- C4 (ChainVerifier is modelled from the spec, §4.4): verification of the
empty chain is Valid; a nonempty chain whose first block's `previousHash`
differs from `"0"` is Invalid at index 0; a chain verifies Valid exactly
when no index carries a violation; and `verify` returns `Invalid i r`
exactly when the check at index `i` yields reason `r` (HashMismatch when
the recomputed digest differs from the stored hash, checked before the
linkage comparison; LinkageMismatch when `previousHash` differs from the
prior block's hash) while every smaller index checks clean — i.e. the scan
short-circuits at the first violation in ascending order. -/
theorem C4_verify_first_violation (chain : List Block) :
    verify ([] : List Block) = VerificationResult.Valid
    ∧ (∀ b rest, chain = b :: rest → b.previousHash ≠ "0" →
        verify chain = VerificationResult.Invalid 0 VerifyReason.LinkageMismatch)
    ∧ (verify chain = VerificationResult.Valid ↔ ∀ i, checkAt chain i = none)
    ∧ (∀ i r, verify chain = VerificationResult.Invalid i r ↔
        (checkAt chain i = some r ∧ ∀ j, j < i → checkAt chain j = none)) := by
  refine ⟨rfl, ?_, ?_, ?_⟩
  · rintro b rest rfl hne
    show verifyFrom none 0 (b :: rest) = VerificationResult.Invalid 0 VerifyReason.LinkageMismatch
    rw [verifyFrom]
    have hc : checkBlock none b = some VerifyReason.LinkageMismatch := by
      unfold checkBlock
      rw [if_pos hne]
    rw [hc]
  · simp only [checkAt_eq_checkAtFrom]
    exact verifyFrom_valid_iff chain none
  · intro i r
    simp only [checkAt_eq_checkAtFrom]
    exact verifyFrom_invalid_iff chain none i r

/-- Witness for C4: the empty chain is Valid, and a one-block chain whose
genesis sentinel is wrong is Invalid at index 0. -/
theorem C4_verify_first_violation_witness :
    verify ([] : List Block) = VerificationResult.Valid
    ∧ verify [mkBlock 1 actUpload "x"]
        = VerificationResult.Invalid 0 VerifyReason.LinkageMismatch := by
  refine ⟨(C4_verify_first_violation []).1, ?_⟩
  exact (C4_verify_first_violation [mkBlock 1 actUpload "x"]).2.1 _ _ rfl (by decide)

/-- C5: the watcher invokes block creation for a change exactly when the
change's type is `added` (never for `modified` or `removed`) — but
Firestore delivers every document already present at subscription time in
the first snapshot as a change of type `added`, so a pre-existing event IS
re-chained: the second conjunct evaluates the dispatch at that failing
input (one pre-existing event document), and the watcher chains it. -/
theorem C5_watcher_rechains_preexisting :
    (∀ c : DocChange, triggersBlockCreation c = true ↔ c.type = ChangeType.added)
    ∧ chainedFromSnapshot (initialSnapshotChanges [actUpload]) = [actUpload] := by
  constructor
  · intro c
    simp [triggersBlockCreation]
  · simp [chainedFromSnapshot, initialSnapshotChanges, triggersBlockCreation]

/-- C6: a failing store read or append inside block creation is caught:
exactly one error line is logged, no block for that event is stored, the
call returns normally, and across a whole run the failed events are simply
dropped with no retry — the resulting chain is exactly the chain of the
fault-free events, with one error line per failed event. -/
theorem C6_error_handling :
    (∀ (f : StoreFaults) (store : List Block) (a : Json) (now : Nat),
        faultFree f = false →
          (createNewBlockCaught f store a now).1 = store
          ∧ (createNewBlockCaught f store a now).2.length = 1)
    ∧ ∀ evs : List (StoreFaults × Json × Nat),
        (runWithFaults [] [] evs).1
            = run ((evs.filter (fun e => faultFree e.1)).map (fun e => e.2))
        ∧ (runWithFaults [] [] evs).2.length = evs.countP (fun e => ! faultFree e.1) := by
  constructor
  · intro f store a now hff
    cases hr : f.readErr with
    | some msg =>
      have hc : createNewBlockCaught f store a now
          = (store, ["Error creating new block: " ++ msg]) := by
        unfold createNewBlockCaught tryCreateBlock
        rw [hr]
      rw [hc]
      exact ⟨rfl, rfl⟩
    | none =>
      cases ha : f.addErr with
      | some msg =>
        have hc : createNewBlockCaught f store a now
            = (store, ["Error creating new block: " ++ msg]) := by
          unfold createNewBlockCaught tryCreateBlock
          rw [hr, ha]
        rw [hc]
        exact ⟨rfl, rfl⟩
      | none =>
        exfalso
        unfold faultFree at hff
        rw [hr, ha] at hff
        cases hff
  · intro evs
    refine ⟨runWithFaults_store evs [] [], ?_⟩
    rw [runWithFaults_logs evs [] []]
    exact Nat.zero_add _

/-- Witness for C6: a failed latest-block read leaves the store unchanged
and logs exactly one error line. -/
theorem C6_error_handling_witness :
    (createNewBlockCaught { readErr := some "unavailable", addErr := none } [] actUpload 5).1 = []
    ∧ (createNewBlockCaught { readErr := some "unavailable", addErr := none }
        [] actUpload 5).2.length = 1 :=
  C6_error_handling.1 { readErr := some "unavailable", addErr := none } [] actUpload 5 rfl

/-- C7: clearing a collection holding exactly 1200 documents performs
exactly three page operations, batch-deleting 500, 500 and 200 documents,
and leaves the collection empty; clearing an empty collection deletes
nothing and performs no batch commit at all. -/
theorem C7_clear_collection :
    clearCollection 1200 = (0, [500, 500, 200]) ∧ clearCollection 0 = (0, []) := by
  refine ⟨?_, ?_⟩ <;> simp [clearCollection]

/-- C8: processing the upload of `a.txt` followed by its deletion produces
exactly two blocks, the second block's `previousHash` equals the first
block's `hash`, and the dashboard's derived current-files view over the
two-event activity log is empty. -/
theorem C8_upload_delete_scenario :
    (∃ b1 b2 : Block, run scenarioEvents = [b1, b2]
      ∧ b2.previousHash = b1.hash
      ∧ b1.activity = actUpload ∧ b2.activity = actDelete)
    ∧ deriveFiles [uploadLog, deleteLog] = [] := by
  refine ⟨⟨mkBlock 100 actUpload "0",
      mkBlock 200 actDelete (mkBlock 100 actUpload "0").hash, ?_, rfl, rfl, rfl⟩, by decide⟩
  rfl

/-- C9 counterexample: for an event whose client-assigned activity
timestamp is 5, processed when `Date.now()` reads 99, the timestamp
serialized at top level into the hashed content is 99 — the
watcher-assigned block timestamp, which is exactly the field the
descending-timestamp tip query maximizes — and not the client-assigned 5.
The timestamp source used for hashing is therefore the same as the one
used for tip ordering, refuting the claimed divergence. -/
theorem C9_counterexample :
    hashedFields 99 clientActivity "0"
      = [("timestamp", Json.num 99), ("activity", clientActivity), ("previousHash", Json.str "0")]
    ∧ (mkBlock 99 clientActivity "0").timestamp = 99
    ∧ getLatestBlock [mkBlock 99 clientActivity "0"] = some (mkBlock 99 clientActivity "0")
    ∧ jsonField clientActivity "timestamp" = some (Json.num 5)
    ∧ Json.num 99 ≠ Json.num 5 := by
  refine ⟨rfl, rfl, rfl, rfl, ?_⟩
  intro h
  injection h with h2
  exact absurd h2 (by decide)

/-- C9 amended: the top-level timestamp hashed into a block and the
tip-ordering key are the same watcher-assigned `Date.now()` value stored
in the block's `timestamp` field — the field the latest-block query
maximizes — while the event's client-assigned timestamp is hashed only
inside the embedded activity payload. -/
theorem C9_same_timestamp_source (t : Nat) (a : Json) (p : String)
    (store : List Block) (b : Block) :
    hashedFields t a p
      = [("timestamp", Json.num (Int.ofNat t)), ("activity", a), ("previousHash", Json.str p)]
    ∧ (mkBlock t a p).timestamp = t
    ∧ (getLatestBlock store = some b → ∀ c ∈ store, c.timestamp ≤ b.timestamp) :=
  ⟨rfl, rfl, fun hm => getLatestBlock_max store b hm⟩

/-- Witness for C9's amended statement at a concrete block and store. -/
theorem C9_same_timestamp_source_witness :
    hashedFields 99 clientActivity "0"
      = [("timestamp", Json.num (Int.ofNat 99)), ("activity", clientActivity),
          ("previousHash", Json.str "0")]
    ∧ (mkBlock 99 clientActivity "0").timestamp = 99
    ∧ (mkBlock 99 clientActivity "0").timestamp ≤ (mkBlock 99 clientActivity "0").timestamp := by
  obtain ⟨h1, h2, h3⟩ := C9_same_timestamp_source 99 clientActivity "0"
      [mkBlock 99 clientActivity "0"] (mkBlock 99 clientActivity "0")
  exact ⟨h1, h2, h3 rfl (mkBlock 99 clientActivity "0") (List.mem_singleton.mpr rfl)⟩

/-- C10: for every previousHash and activity payload the computed block
hash is a 64-character string of hexadecimal digits and in particular is
never the genesis sentinel `"0"`; consequently, in any chain built by the
watcher from an empty store, every non-genesis block's `previousHash` is
some stored block's digest, so `previousHash` equals `"0"` only at
position 0. -/
theorem C10_hash_shape (t : Nat) (a : Json) (p : String) (evs : List (Json × Nat)) :
    ((mkBlock t a p).hash.length = 64
      ∧ (∀ c ∈ (mkBlock t a p).hash.data, c ∈ hexChars)
      ∧ (mkBlock t a p).hash ≠ "0")
    ∧ ∀ i (hi : i < (run evs).length), 0 < i →
        ((run evs).get ⟨i, hi⟩).previousHash ≠ "0" := by
  refine ⟨⟨sha256Hex_length _, sha256Hex_chars _, sha256Hex_ne_genesis _⟩, ?_⟩
  intro i hi hpos
  have h := (runFrom_hash_shaped evs [] (fun b hb => absurd hb (List.not_mem_nil b))
      (fun j b hget _ => by rw [List.get?_nil] at hget; cases hget)).2
  have hget : (run evs).get? i = some ((run evs).get ⟨i, hi⟩) := List.get?_eq_get hi
  obtain ⟨s, hs⟩ := h i ((run evs).get ⟨i, hi⟩) hget hpos
  rw [hs]
  exact sha256Hex_ne_genesis s

/-- Witness for C10: a concrete block hash has length 64, and in the
concrete two-event run, the second block's previousHash is not "0". -/
theorem C10_hash_shape_witness :
    (mkBlock 7 actUpload "0").hash.length = 64
    ∧ ((run c10Events).get ⟨1, by decide⟩).previousHash ≠ "0" := by
  have h := C10_hash_shape 7 actUpload "0" c10Events
  exact ⟨h.1.1, h.2 1 (by decide) (by decide)⟩

end SecureChain
